import Mathlib

/-!
Shallow embedding of src/transferprediction/run_glue.py.

Python integers are modelled as Nat/Int, Python floats that only ever hold
sums and quotients of loss scalars are modelled as ℚ, Python strings are
List Char, and fallible code returns Except. The model backend, the
tokenizer and the metrics engine are external collaborators; their outputs
enter the embedding as parameters.
-/

/-- One decimal digit character, as in the Python str() output for 0..9. -/
def digitChar (d : Nat) : Char := Char.ofNat (48 + d)

/-- Accumulator form of the decimal rendering of a nonnegative integer. -/
def natReprAux (n : Nat) (acc : List Char) : List Char :=
  if _h : n < 10 then digitChar n :: acc
  else natReprAux (n / 10) (digitChar (n % 10) :: acc)
termination_by n
decreasing_by exact Nat.div_lt_self (by omega) (by omega)

/-- Model of Python str(n) for a nonnegative integer: its decimal digits. -/
def natRepr (n : Nat) : List Char := natReprAux n []

/-- Numeric value of a digit character, as int() uses it on a digit string. -/
def charDigit (c : Char) : Nat := c.toNat - 48

/-- Model of Python int() applied to a string of decimal digits. -/
def pyInt (s : List Char) : Nat := s.foldl (fun a c => a * 10 + charDigit c) 0

/-- Number of decimal digits of a nonnegative integer. -/
def numDigits (n : Nat) : Nat :=
  if n < 10 then 1 else numDigits (n / 10) + 1
termination_by n
decreasing_by exact Nat.div_lt_self (by omega) (by omega)

/-- Model of Python str.split(sep) for a one-character separator. -/
def pySplitChar (sep : Char) : List Char → List (List Char)
  | [] => [[]]
  | c :: rest =>
    match pySplitChar sep rest with
    | [] => [[]]
    | g :: gs => if c = sep then [] :: g :: gs else (c :: g) :: gs

/-- Model of int(model_name_or_path.split("-")[-1].split("/")[0]),
the checkpoint-step recovery at run_glue.py line 350. -/
def parseCheckpointStep (path : List Char) : Nat :=
  pyInt ((pySplitChar '/' ((pySplitChar '-' path).getLastD [])).headD [])

/-- Checkpoint directory name written by save_model (run_glue.py lines 150-152):
os.path.join(output_dir, "checkpoint-" + str(global_step)), modelled for an
output_dir without a trailing separator. -/
def checkpointDir (output_dir : List Char) (global_step : Nat) : List Char :=
  output_dir ++ '/' :: ("checkpoint-".data ++ natRepr global_step)

/-- One training instance as run_glue.py sees it: a tuple of tensors whose
last component is the task index (collate_func reads instance[-1]). -/
structure Instance where
  input_ids : List Int
  attention_mask : List Int
  token_type_ids : List Int
  label : Int
  task : Nat
deriving DecidableEq

/-- batches_by_task[i].append(inst), the bucket update inside collate_func. -/
def appendAt : List (List Instance) → Nat → Instance → List (List Instance)
  | [], _, _ => []
  | g :: gs, 0, inst => (g ++ [inst]) :: gs
  | g :: gs, i + 1, inst => g :: appendAt gs i inst

/-- The bucket-filling loop of collate_func (run_glue.py lines 191-194).
An instance whose task index is outside the bucket list raises IndexError. -/
def buildGroups : List Instance → List (List Instance) → Except String (List (List Instance))
  | [], groups => .ok groups
  | inst :: rest, groups =>
    if inst.task < groups.length then
      buildGroups rest (appendAt groups inst.task inst)
    else .error "IndexError"

/-- collate_func of train (run_glue.py lines 183-212), the split-mode batch
assembler: one bucket per configured task (numTasks = len(args.data_dir_list)),
an error when every bucket is empty, empty buckets dropped otherwise. The
final default_collate per bucket only stacks tensors, so each sub-batch is
kept as its list of instances. -/
def collate_func (numTasks : Nat) (batch : List Instance) :
    Except String (List (List Instance)) := do
  let groups ← buildGroups batch (List.replicate numTasks [])
  let batch_lens := groups.map List.length
  if batch_lens.sum = 0 then
    .error "Empty task lists"
  else
    let final := if 0 ∈ batch_lens then groups.filter (fun g => g.length != 0) else groups
    .ok final

/-- The per-task groups of a raw batch, in task-index order. -/
def groupsOf (numTasks : Nat) (batch : List Instance) : List (List Instance) :=
  (List.range numTasks).map (fun t => batch.filter (fun i => i.task == t))

/-- The run configuration fields of run_glue.py that the embedded logic reads.
Strings are List Char; per-task lists follow args.task_names order. -/
structure Args where
  gradient_accumulation_steps : Nat
  max_steps : Int
  num_train_epochs : Nat
  model_name_or_path : List Char
  output_dir : List Char
  start_again : Bool
  local_rank : Int
  batch_type : List Char
  task_names : List (List Char)
  do_train : Bool
  overwrite_output_dir : Bool
  overwrite_cache : Bool
  max_seq_length : Nat
deriving DecidableEq

/-- The mutable training-loop state of train (run_glue.py lines 344-506).
tr_loss and grad track the float loss accumulator and the accumulated
gradient contribution; clips, opt_steps, sched_steps and zero_grads count
the calls made inside the accumulation-window update block; saves lists the
checkpoint directory names written by save_model, in order. -/
structure TrainState where
  global_step : Nat
  tr_loss : ℚ
  skip : Nat
  grad : ℚ
  clips : Nat
  opt_steps : Nat
  sched_steps : Nat
  zero_grads : Nat
  all_losses : List ℚ
  saves : List (List Char)
  broke : Bool
deriving DecidableEq

/-- One iteration of the in-epoch loop (run_glue.py lines 395-482), for the
raw batch at index step whose sub-batches produced the given model losses.
Order as in the source: resume skip, half-epoch save, loss summation over
sub-batches, division by the accumulation window when it exceeds 1,
backward accumulation, then — exactly when (step+1) is a multiple of the
window — clip, loss logging, optimizer step, scheduler step, gradient
reset and the global_step increment, and finally the max_steps break. -/
def trainStep (a : Args) (half : Nat) (step : Nat) (losses : List ℚ)
    (s : TrainState) : TrainState :=
  if s.broke then s
  else if 0 < s.skip then { s with skip := s.skip - 1 }
  else
    let s1 := if step = half
      then { s with saves := s.saves ++ [checkpointDir a.output_dir s.global_step] }
      else s
    let loss : ℚ :=
      if 1 < a.gradient_accumulation_steps
      then losses.sum / (a.gradient_accumulation_steps : ℚ)
      else losses.sum
    let s2 := { s1 with grad := s1.grad + loss, tr_loss := s1.tr_loss + loss }
    let s3 :=
      if (step + 1) % a.gradient_accumulation_steps = 0 then
        { s2 with
          clips := s2.clips + 1
          all_losses := s2.all_losses ++ [loss]
          opt_steps := s2.opt_steps + 1
          sched_steps := s2.sched_steps + 1
          zero_grads := s2.zero_grads + 1
          grad := 0
          global_step := s2.global_step + 1 }
      else s2
    if 0 < a.max_steps ∧ a.max_steps < (s3.global_step : Int)
    then { s3 with broke := true }
    else s3

/-- The enumerate-driven fold over one epoch's raw batches. A state whose
broke flag is set passes through untouched: the in-epoch iterator has been
closed. -/
def runSteps (a : Args) (half : Nat) : Nat → List (List ℚ) → TrainState → TrainState
  | _, [], s => s
  | step, b :: bs, s => runSteps a half (step + 1) bs (trainStep a half step b s)

/-- One iteration of the epoch loop (run_glue.py lines 379-497): gradient
reset and loss-log reset at epoch start, the in-epoch loop with the
half-epoch save index, and the end-of-epoch save_model call made by the
main process. -/
def epochBody (a : Args) (batches : List (List ℚ)) (s : TrainState) : TrainState :=
  let s0 := { s with grad := 0, all_losses := [] }
  let s1 := runSteps a (batches.length / 2) 0 batches s0
  if a.local_rank = -1 ∨ a.local_rank = 0
  then { s1 with saves := s1.saves ++ [checkpointDir a.output_dir s1.global_step] }
  else s1

/-- The epoch loop with the outer max_steps break (run_glue.py lines 499-501),
run for the given number of remaining epochs. -/
def runEpochs (a : Args) (batches : List (List ℚ)) : Nat → TrainState → TrainState
  | 0, s => s
  | n + 1, s =>
    let s1 := epochBody a batches s
    if 0 < a.max_steps ∧ a.max_steps < (s1.global_step : Int) then s1
    else runEpochs a batches n s1

/-- len(train_dataloader) // args.gradient_accumulation_steps, the number of
optimizer updates per epoch used by the resume arithmetic. -/
def stepsPerEpoch (a : Args) (dataloaderLen : Nat) : Nat :=
  dataloaderLen / a.gradient_accumulation_steps

/-- global_step recovered on resume (run_glue.py lines 348-356); 0 for a
fresh start. -/
def initGlobalStep (a : Args) (modelPathExists : Bool) : Nat :=
  if modelPathExists = true ∧ a.start_again = false
  then parseCheckpointStep a.model_name_or_path
  else 0

/-- epochs_trained derived on resume (run_glue.py lines 351-353). -/
def epochsTrained (a : Args) (modelPathExists : Bool) (dataloaderLen : Nat) : Nat :=
  if modelPathExists = true ∧ a.start_again = false
  then parseCheckpointStep a.model_name_or_path / stepsPerEpoch a dataloaderLen
  else 0

/-- steps_trained_in_current_epoch derived on resume (lines 354-356). -/
def stepsSkippedInEpoch (a : Args) (modelPathExists : Bool) (dataloaderLen : Nat) : Nat :=
  if modelPathExists = true ∧ a.start_again = false
  then parseCheckpointStep a.model_name_or_path % stepsPerEpoch a dataloaderLen
  else 0

/-- The training-loop state right before the epoch loop starts. -/
def initState (a : Args) (modelPathExists : Bool) (dataloaderLen : Nat) : TrainState :=
  { global_step := initGlobalStep a modelPathExists
    tr_loss := 0
    skip := stepsSkippedInEpoch a modelPathExists dataloaderLen
    grad := 0
    clips := 0
    opt_steps := 0
    sched_steps := 0
    zero_grads := 0
    all_losses := []
    saves := []
    broke := false }

/-- The epoch count the loop actually iterates: when max_steps is positive,
num_train_epochs is recomputed (run_glue.py lines 239-245), and resume
starts the trange at epochs_trained. -/
def effectiveEpochs (a : Args) (dataloaderLen : Nat) : Nat :=
  if 0 < a.max_steps
  then a.max_steps.toNat / stepsPerEpoch a dataloaderLen + 1
  else a.num_train_epochs

/-- Final training-loop state of train. Each raw batch enters as the list of
scalar losses its sub-batches obtain from the model backend; the dataloader
yields the same number of batches each epoch, so one per-epoch list stands
for every epoch. -/
def trainFinal (a : Args) (batches : List (List ℚ)) (modelPathExists : Bool) :
    TrainState :=
  runEpochs a batches
    (effectiveEpochs a batches.length - epochsTrained a modelPathExists batches.length)
    (initState a modelPathExists batches.length)

/-- train (run_glue.py lines 178-506) as a function from configuration,
per-epoch sub-batch losses and checkpoint presence to its return value
(global_step, tr_loss / global_step). Every site where the Python source
divides by a quantity that can be zero — the t_total epoch recomputation at
line 243, the resume arithmetic at lines 351-355 with an accumulation
window larger than the dataloader, and the final average at line 506 —
surfaces as a ZeroDivisionError. -/
def train (a : Args) (batches : List (List ℚ)) (modelPathExists : Bool) :
    Except String (Nat × ℚ) :=
  if a.gradient_accumulation_steps = 0 then .error "ZeroDivisionError"
  else if 0 < a.max_steps ∧ stepsPerEpoch a batches.length = 0 then
    .error "ZeroDivisionError"
  else if modelPathExists = true ∧ a.start_again = false
      ∧ stepsPerEpoch a batches.length = 0 then
    .error "ZeroDivisionError"
  else
    if (trainFinal a batches modelPathExists).global_step = 0 then
      .error "ZeroDivisionError"
    else
      .ok ((trainFinal a batches modelPathExists).global_step,
        (trainFinal a batches modelPathExists).tr_loss
          / ((trainFinal a batches modelPathExists).global_step : ℚ))

/-- How startup in main (run_glue.py lines 984-1054) disposes of a run
before any model or dataset is touched. -/
inductive StartupOutcome
  | configError
  | alreadyDone
  | taskNotFound
  | proceed
deriving DecidableEq

/-- The artifact main writes at the end of a run (run_glue.py line 1203). -/
def resultsFileWritten : List Char := "results.json".data

/-- The file name the already-done guard tests at startup (line 996). -/
def completionMarker : List Char := "results.csv".data

/-- Startup checks of main in source order: the populated-output-directory
check (lines 984-994), the already-done guard (lines 996-1001), then the
task-name validation against the processor registry (lines 1052-1054).
files lists the entries of the output directory (empty when the directory
does not exist or is empty); procs lists the known task names. -/
def mainStartup (a : Args) (files : List (List Char)) (procs : List (List Char)) :
    StartupOutcome :=
  if files ≠ [] ∧ a.do_train = true ∧ a.overwrite_output_dir = false
  then .configError
  else if completionMarker ∈ files then .alreadyDone
  else if a.task_names.all (fun t => procs.contains t) then .proceed
  else .taskNotFound

/-- Batch-type values listed in the help text of the --batch_type option
(run_glue.py lines 964-969). -/
def recognizedBatchTypes : List (List Char) :=
  ["heterogeneous".data, "forced_heterogeneous".data, "homogeneous".data,
    "partition".data]

/-- needle appears as a contiguous run of hay, the Python in operator on
strings. -/
def startsWithChars : List Char → List Char → Bool
  | [], _ => true
  | _ :: _, [] => false
  | a :: as, b :: bs => a == b && startsWithChars as bs

/-- Substring containment on character lists. -/
def containsSub (needle : List Char) : List Char → Bool
  | [] => startsWithChars needle []
  | c :: rest => startsWithChars needle (c :: rest) || containsSub needle rest

/-- The dataloader selection in train (run_glue.py lines 218-237): the dense
single-batch collate is used exactly when the output directory name contains
a recognizing substring; otherwise the split collate_func is installed. -/
def denseDataloader (a : Args) : Bool :=
  containsSub "dnc".data a.output_dir
    || containsSub "size_experiment".data a.output_dir

/-- The per-task evaluation task-name tuple in evaluate (run_glue.py
line 524): both branches of the conditional produce the same singleton. -/
def evalTaskNames (task_name : List Char) : List (List Char) :=
  if task_name = "mnli".data then ["mnli".data] else [task_name]

/-- The per-task evaluation output-directory tuple in evaluate (lines
525-529): two directories for mnli, one otherwise. -/
def evalOutputsDirs (output_dir task_name : List Char) : List (List Char) :=
  if task_name = "mnli".data
  then [output_dir, output_dir ++ "-MM".data]
  else [output_dir]

/-- The (eval_task, eval_output_dir) pairs the inner evaluation loop at
run_glue.py lines 538-540 iterates: zip truncates to the shorter tuple. -/
def evalPairs (output_dir task_name : List Char) : List (List Char × List Char) :=
  (evalTaskNames task_name).zip (evalOutputsDirs output_dir task_name)

/-- Which store the features came from in load_and_cache_examples. -/
inductive FeatureSource
  | cache
  | regenerated
deriving DecidableEq

/-- The files present in the task's data directory. -/
structure CacheEnv where
  files : List (List Char)
deriving DecidableEq

/-- list(filter(None, model_name_or_path.split("/"))).pop(): the last
nonempty path component of the model name (run_glue.py line 667),
modelled for a path with at least one nonempty component. -/
def modelNameComponent (p : List Char) : List Char :=
  ((pySplitChar '/' p).filter (fun s => !s.isEmpty)).getLastD []

/-- The cache-file key of load_and_cache_examples (run_glue.py lines
663-671): cached_{split}_{model}_{max_seq_length}_{task} joined onto the
task's data directory, with split dev on evaluation and train otherwise. -/
def cached_features_file (a : Args) (data_dir task : List Char) (evaluate : Bool) :
    List Char :=
  data_dir ++ '/' :: ("cached_".data
    ++ (if evaluate then "dev".data else "train".data) ++ "_".data
    ++ modelNameComponent a.model_name_or_path ++ "_".data
    ++ natRepr a.max_seq_length ++ "_".data ++ task)

/-- load_and_cache_examples (run_glue.py lines 642-716), single process.
The tokenizer backend is external: regen carries the outcome
convert_examples_to_features would produce from this task's source
examples, its payload left opaque. On a cache hit (the key file exists and
the overwrite flag is unset) the cached features are loaded and the
directory is untouched; otherwise features are regenerated, a regeneration
failure propagates, and the main process (local_rank -1 or 0) writes the
regenerated features back under the cache key. -/
def load_and_cache_examples (a : Args) (data_dir task : List Char)
    (evaluate : Bool) (env : CacheEnv) (regen : Except String (List Nat)) :
    Except String (FeatureSource × CacheEnv) :=
  let cf := cached_features_file a data_dir task evaluate
  if cf ∈ env.files ∧ a.overwrite_cache = false then
    .ok (.cache, env)
  else
    match regen with
    | .error e => .error e
    | .ok _ =>
      if a.local_rank = -1 ∨ a.local_rank = 0 then
        .ok (.regenerated, { env with files := cf :: env.files })
      else .ok (.regenerated, env)

/-- The invariant behind the max_steps break: before the break fires the
step count is within the cap, and the break fires exactly at cap + 1. -/
def capInv (a : Args) (s : TrainState) : Prop :=
  (s.broke = false → (s.global_step : Int) ≤ a.max_steps)
    ∧ (s.broke = true → (s.global_step : Int) = a.max_steps + 1)

/-- Order of first appearance of task ids in a raw batch. This follows the
spec wording about sub-batch order, to be compared with the order
collate_func actually produces. -/
def appearanceOrder (batch : List Instance) : List Nat :=
  batch.foldl (fun acc i => if i.task ∈ acc then acc else acc ++ [i.task]) []

/-- Task id of a sub-batch, read off its first instance. -/
def headTask (g : List Instance) : Nat :=
  match g with
  | [] => 0
  | i :: _ => i.task

/-- A concrete instance of task 0. -/
def instTask0 : Instance :=
  { input_ids := [], attention_mask := [], token_type_ids := [], label := 0
    task := 0 }

/-- A concrete instance of task 1. -/
def instTask1 : Instance :=
  { input_ids := [], attention_mask := [], token_type_ids := [], label := 0
    task := 1 }

/-- A concrete baseline configuration, accumulation window 2, no step cap. -/
def argsA : Args :=
  { gradient_accumulation_steps := 2
    max_steps := -1
    num_train_epochs := 1
    model_name_or_path := "roberta-base".data
    output_dir := "out".data
    start_again := false
    local_rank := -1
    batch_type := "heterogeneous".data
    task_names := ["sst-2".data]
    do_train := true
    overwrite_output_dir := false
    overwrite_cache := false
    max_seq_length := 128 }

/-- The baseline configuration with window 1 and max_steps 1. -/
def argsB : Args :=
  { argsA with gradient_accumulation_steps := 1, max_steps := 1 }

/-- The baseline configuration with an unrecognized batch type. -/
def argsC : Args :=
  { argsA with batch_type := "bogus".data }

/-- A cache directory already holding the train feature file of sst-2. -/
def cacheEnvA : CacheEnv :=
  { files := [cached_features_file argsA "data".data "sst-2".data false] }

lemma charDigit_digitChar (d : Nat) (hd : d < 10) : charDigit (digitChar d) = d := by
  interval_cases d <;> decide

lemma digitChar_ne_dash (d : Nat) (hd : d < 10) : digitChar d ≠ '-' := by
  interval_cases d <;> decide

lemma digitChar_ne_slash (d : Nat) (hd : d < 10) : digitChar d ≠ '/' := by
  interval_cases d <;> decide

lemma numDigits_ge_ten (n : Nat) (h : ¬ n < 10) :
    numDigits n = numDigits (n / 10) + 1 := by
  rw [numDigits]
  simp [h]

lemma foldl_natReprAux (n : Nat) : ∀ (acc : List Char) (v : Nat),
    (natReprAux n acc).foldl (fun a c => a * 10 + charDigit c) v
      = acc.foldl (fun a c => a * 10 + charDigit c) (v * 10 ^ numDigits n + n) := by
  induction n using Nat.strong_induction_on with
  | _ n ih =>
    intro acc v
    rw [natReprAux]
    by_cases h : n < 10
    · rw [dif_pos h, numDigits, if_pos h]
      simp [List.foldl_cons, charDigit_digitChar n h]
    · rw [dif_neg h, ih (n / 10) (Nat.div_lt_self (by omega) (by omega)),
        List.foldl_cons, numDigits_ge_ten n h, charDigit_digitChar (n % 10) (by omega)]
      congr 1
      have h1 : (v * 10 ^ numDigits (n / 10) + n / 10) * 10 + n % 10
          = v * 10 ^ numDigits (n / 10) * 10 + (n / 10 * 10 + n % 10) := by ring
      have h2 : n / 10 * 10 + n % 10 = n := by omega
      rw [h1, h2, pow_succ]
      ring

lemma pyInt_natRepr (n : Nat) : pyInt (natRepr n) = n := by
  have h := foldl_natReprAux n [] 0
  simpa [pyInt, natRepr] using h

lemma mem_natReprAux (n : Nat) : ∀ (acc : List Char) (c : Char), c ∈ natReprAux n acc →
    c ∈ acc ∨ ∃ d, d < 10 ∧ c = digitChar d := by
  induction n using Nat.strong_induction_on with
  | _ n ih =>
    intro acc c hc
    rw [natReprAux] at hc
    by_cases h : n < 10
    · rw [dif_pos h] at hc
      rcases List.mem_cons.mp hc with rfl | hc
      · exact Or.inr ⟨n, h, rfl⟩
      · exact Or.inl hc
    · rw [dif_neg h] at hc
      rcases ih (n / 10) (Nat.div_lt_self (by omega) (by omega)) _ c hc with hc | hc
      · rcases List.mem_cons.mp hc with rfl | hc
        · exact Or.inr ⟨n % 10, by omega, rfl⟩
        · exact Or.inl hc
      · exact Or.inr hc

lemma natRepr_not_mem_dash (n : Nat) : '-' ∉ natRepr n := by
  intro h
  rcases mem_natReprAux n [] _ h with h | ⟨d, hd, he⟩
  · simp at h
  · exact digitChar_ne_dash d hd he.symm

lemma natRepr_not_mem_slash (n : Nat) : '/' ∉ natRepr n := by
  intro h
  rcases mem_natReprAux n [] _ h with h | ⟨d, hd, he⟩
  · simp at h
  · exact digitChar_ne_slash d hd he.symm

lemma pySplitChar_ne_nil (sep : Char) (s : List Char) : pySplitChar sep s ≠ [] := by
  cases s with
  | nil => simp [pySplitChar]
  | cons c rest =>
    rw [pySplitChar]
    rcases h : pySplitChar sep rest with _ | ⟨g, gs⟩
    · simp
    · by_cases hc : c = sep <;> simp [hc]

lemma pySplitChar_not_mem (sep : Char) (s : List Char) (h : sep ∉ s) :
    pySplitChar sep s = [s] := by
  induction s with
  | nil => rfl
  | cons c rest ih =>
    have hc : c ≠ sep := fun he => h (he ▸ List.mem_cons_self c rest)
    have hr : sep ∉ rest := fun hm => h (List.mem_cons_of_mem c hm)
    rw [pySplitChar, ih hr]
    simp [hc]

lemma length_pySplitChar_sep (sep : Char) (xs ys : List Char) :
    2 ≤ (pySplitChar sep (xs ++ sep :: ys)).length := by
  induction xs with
  | nil =>
    rw [List.nil_append, pySplitChar]
    rcases h : pySplitChar sep ys with _ | ⟨g, gs⟩
    · exact absurd h (pySplitChar_ne_nil sep ys)
    · simp
  | cons c xs ih =>
    rw [List.cons_append, pySplitChar]
    rcases h : pySplitChar sep (xs ++ sep :: ys) with _ | ⟨g, gs⟩
    · exact absurd h (pySplitChar_ne_nil _ _)
    · rw [h] at ih
      by_cases hc : c = sep
      · simp [hc]
      · simp only [if_neg hc]
        simpa using ih

lemma getLastD_irrel (l : List (List Char)) (h : l ≠ []) (d1 d2 : List Char) :
    l.getLastD d1 = l.getLastD d2 := by
  cases l with
  | nil => exact absurd rfl h
  | cons a l => rw [List.getLastD_cons, List.getLastD_cons]

lemma getLastD_pySplitChar_append (sep : Char) (xs ys : List Char) :
    (pySplitChar sep (xs ++ sep :: ys)).getLastD [] = (pySplitChar sep ys).getLastD [] := by
  induction xs with
  | nil =>
    rw [List.nil_append, pySplitChar]
    rcases h : pySplitChar sep ys with _ | ⟨g, gs⟩
    · exact absurd h (pySplitChar_ne_nil sep ys)
    · simp [List.getLastD_cons]
  | cons c xs ih =>
    rw [List.cons_append, pySplitChar]
    rcases h : pySplitChar sep (xs ++ sep :: ys) with _ | ⟨g, gs⟩
    · exact absurd h (pySplitChar_ne_nil _ _)
    · have hlen := length_pySplitChar_sep sep xs ys
      rw [h] at ih hlen
      have hmatch : (match g :: gs with
          | [] => ([[]] : List (List Char))
          | g :: gs => if c = sep then [] :: g :: gs else (c :: g) :: gs)
          = if c = sep then [] :: g :: gs else (c :: g) :: gs := rfl
      rw [hmatch]
      by_cases hc : c = sep
      · rw [if_pos hc, ← ih]
        simp [List.getLastD_cons]
      · rw [if_neg hc, ← ih]
        rcases gs with _ | ⟨g2, gs2⟩
        · simp at hlen
        · simp only [List.getLastD_cons]

lemma parse_checkpointDir (d : List Char) (k : Nat) :
    parseCheckpointStep (checkpointDir d k) = k := by
  have hdat : "checkpoint-".data = "checkpoint".data ++ ['-'] := by decide
  have hsplit : checkpointDir d k
      = (d ++ '/' :: "checkpoint".data) ++ '-' :: natRepr k := by
    rw [checkpointDir, hdat]
    simp [List.append_assoc]
  rw [parseCheckpointStep, hsplit, getLastD_pySplitChar_append,
      pySplitChar_not_mem '-' (natRepr k) (natRepr_not_mem_dash k)]
  simp only [List.getLastD_cons, List.getLastD_nil]
  rw [pySplitChar_not_mem '/' (natRepr k) (natRepr_not_mem_slash k)]
  simp only [List.headD_cons]
  exact pyInt_natRepr k

lemma appendAt_length (gs : List (List Instance)) (i : Nat) (x : Instance) :
    (appendAt gs i x).length = gs.length := by
  induction gs generalizing i with
  | nil => rfl
  | cons g gs ih =>
    cases i with
    | zero => rfl
    | succ i => simpa [appendAt] using ih i

lemma getD_appendAt_eq (gs : List (List Instance)) (i : Nat) (x : Instance)
    (h : i < gs.length) : (appendAt gs i x).getD i [] = gs.getD i [] ++ [x] := by
  induction gs generalizing i with
  | nil => simp at h
  | cons g gs ih =>
    cases i with
    | zero => rfl
    | succ i =>
      simp only [appendAt, List.getD_cons_succ]
      exact ih i (by simpa using h)

lemma getD_appendAt_ne (gs : List (List Instance)) (i t : Nat) (x : Instance)
    (h : t ≠ i) : (appendAt gs i x).getD t [] = gs.getD t [] := by
  induction gs generalizing i t with
  | nil => rfl
  | cons g gs ih =>
    cases i with
    | zero =>
      cases t with
      | zero => exact absurd rfl h
      | succ t => rfl
    | succ i =>
      cases t with
      | zero => rfl
      | succ t =>
        simp only [appendAt, List.getD_cons_succ]
        exact ih i t (fun he => h (by omega))

lemma buildGroups_ok (batch : List Instance) (groups : List (List Instance))
    (h : ∀ i ∈ batch, i.task < groups.length) :
    ∃ out, buildGroups batch groups = .ok out ∧ out.length = groups.length ∧
      ∀ t, out.getD t [] = groups.getD t [] ++ batch.filter (fun i => i.task == t) := by
  induction batch generalizing groups with
  | nil => exact ⟨groups, rfl, rfl, fun t => by simp⟩
  | cons inst rest ih =>
    have htask : inst.task < groups.length := h inst (List.mem_cons_self _ _)
    have hrest : ∀ i ∈ rest, i.task < (appendAt groups inst.task inst).length := by
      intro i hi
      rw [appendAt_length]
      exact h i (List.mem_cons_of_mem _ hi)
    obtain ⟨out, hout, hlen, hget⟩ := ih (appendAt groups inst.task inst) hrest
    refine ⟨out, ?_, by rw [hlen, appendAt_length], ?_⟩
    · rw [buildGroups, if_pos htask]
      exact hout
    · intro t
      rw [hget t]
      by_cases ht : t = inst.task
      · rw [ht, getD_appendAt_eq groups inst.task inst htask]
        simp [List.filter_cons, List.append_assoc]
      · rw [getD_appendAt_ne groups inst.task t inst ht]
        have : (inst.task == t) = false := by
          simp [Ne.symm ht]
        simp [List.filter_cons, this]

lemma getD_replicate_nil (n t : Nat) :
    (List.replicate n ([] : List Instance)).getD t [] = [] := by
  by_cases h : t < n
  · rw [List.getD_eq_getElem _ _ (by simpa using h)]
    simp
  · exact List.getD_eq_default _ _ (by simpa using Nat.le_of_not_lt h)

lemma getD_groupsOf (n : Nat) (batch : List Instance) (t : Nat) :
    (groupsOf n batch).getD t []
      = if t < n then batch.filter (fun i => i.task == t) else [] := by
  by_cases h : t < n
  · rw [if_pos h, groupsOf,
      List.getD_eq_getElem _ _ (by simpa [groupsOf] using h)]
    simp
  · rw [if_neg h]
    exact List.getD_eq_default _ _ (by simpa [groupsOf] using Nat.le_of_not_lt h)

lemma list_eq_of_getD (l1 l2 : List (List Instance)) (hlen : l1.length = l2.length)
    (h : ∀ t, l1.getD t [] = l2.getD t []) : l1 = l2 := by
  induction l1 generalizing l2 with
  | nil =>
    cases l2 with
    | nil => rfl
    | cons b l2 => simp at hlen
  | cons a l1 ih =>
    cases l2 with
    | nil => simp at hlen
    | cons b l2 =>
      have h0 := h 0
      simp only [List.getD_cons_zero] at h0
      have htail : l1 = l2 := by
        refine ih l2 (by simpa using hlen) (fun t => ?_)
        have ht := h (t + 1)
        simpa only [List.getD_cons_succ] using ht
      rw [h0, htail]

lemma buildGroups_groupsOf (n : Nat) (batch : List Instance)
    (h : ∀ i ∈ batch, i.task < n) :
    buildGroups batch (List.replicate n []) = .ok (groupsOf n batch) := by
  obtain ⟨out, hout, hlen, hget⟩ :=
    buildGroups_ok batch (List.replicate n []) (by simpa using h)
  rw [hout]
  congr 1
  apply list_eq_of_getD
  · rw [hlen]
    simp [groupsOf]
  · intro t
    rw [hget t, getD_replicate_nil, getD_groupsOf]
    by_cases ht : t < n
    · simp [ht]
    · rw [if_neg ht, List.nil_append]
      rw [List.filter_eq_nil_iff]
      intro i hi
      have := h i hi
      simp only [beq_iff_eq]
      omega

lemma mem_filter_task (batch : List Instance) (t : Nat) (x : Instance)
    (hx : x ∈ batch.filter (fun i => i.task == t)) : x.task = t := by
  have h := (List.mem_filter.mp hx).2
  simpa using h

lemma sum_groupsOf_ne_zero (n : Nat) (batch : List Instance) (inst : Instance)
    (hmem : inst ∈ batch) (ht : inst.task < n) :
    ((groupsOf n batch).map List.length).sum ≠ 0 := by
  have hmemf : inst ∈ batch.filter (fun i => i.task == inst.task) :=
    List.mem_filter.mpr ⟨hmem, by simp⟩
  have hlenpos : 0 < (batch.filter (fun i => i.task == inst.task)).length :=
    List.length_pos_of_mem hmemf
  have hmml : (batch.filter (fun i => i.task == inst.task)).length
      ∈ (groupsOf n batch).map List.length := by
    rw [groupsOf, List.map_map]
    exact List.mem_map.mpr ⟨inst.task, List.mem_range.mpr ht, rfl⟩
  have hle := List.le_sum_of_mem hmml
  omega

lemma collate_func_ok (n : Nat) (batch : List Instance)
    (hrange : ∀ i ∈ batch, i.task < n) (hne : batch ≠ []) :
    collate_func n batch
      = .ok ((groupsOf n batch).filter (fun g => g.length != 0)) := by
  obtain ⟨inst, rest, rfl⟩ : ∃ inst rest, batch = inst :: rest := by
    cases batch with
    | nil => exact absurd rfl hne
    | cons a l => exact ⟨a, l, rfl⟩
  have hsum := sum_groupsOf_ne_zero n (inst :: rest) inst
    (List.mem_cons_self _ _) (hrange inst (List.mem_cons_self _ _))
  rw [collate_func, buildGroups_groupsOf n (inst :: rest) hrange]
  show (if ((groupsOf n (inst :: rest)).map List.length).sum = 0 then _ else _) = _
  rw [if_neg hsum]
  by_cases hz : 0 ∈ (groupsOf n (inst :: rest)).map List.length
  · rw [if_pos hz]
  · rw [if_neg hz]
    congr 1
    refine (List.filter_eq_self.mpr ?_).symm
    intro g hg
    have hgl : g.length ∈ (groupsOf n (inst :: rest)).map List.length :=
      List.mem_map.mpr ⟨g, hg, rfl⟩
    have : g.length ≠ 0 := fun h0 => hz (h0 ▸ hgl)
    simpa using this

lemma collate_func_nil (n : Nat) : collate_func n [] = .error "Empty task lists" := by
  rw [collate_func]
  show (if ((List.replicate n ([] : List Instance)).map List.length).sum = 0
      then Except.error "Empty task lists" else _) = _
  rw [if_pos]
  rw [List.map_replicate]
  simp

lemma loss_scale_eq (N : Nat) (hN : 1 ≤ N) (x : ℚ) :
    (if 1 < N then x / (N : ℚ) else x) = x / (N : ℚ) := by
  by_cases h : 1 < N
  · rw [if_pos h]
  · have hone : N = 1 := by omega
    rw [if_neg h, hone]
    norm_num

lemma trainStep_tr_loss (a : Args) (half step : Nat) (losses : List ℚ)
    (s : TrainState) (hb : s.broke = false) (hs : s.skip = 0)
    (hN : 1 ≤ a.gradient_accumulation_steps) :
    (trainStep a half step losses s).tr_loss
      = s.tr_loss + losses.sum / (a.gradient_accumulation_steps : ℚ) := by
  rw [trainStep, if_neg (by simp [hb]), if_neg (by simp [hs])]
  have hloss := loss_scale_eq a.gradient_accumulation_steps hN losses.sum
  by_cases hhalf : step = half <;>
    by_cases hupd : (step + 1) % a.gradient_accumulation_steps = 0 <;>
      simp [hhalf, hupd, hloss, apply_ite TrainState.tr_loss]

lemma trainStep_update_fields (a : Args) (half step : Nat) (losses : List ℚ)
    (s : TrainState) (hb : s.broke = false) (hs : s.skip = 0)
    (hupd : (step + 1) % a.gradient_accumulation_steps = 0) :
    (trainStep a half step losses s).global_step = s.global_step + 1
      ∧ (trainStep a half step losses s).clips = s.clips + 1
      ∧ (trainStep a half step losses s).opt_steps = s.opt_steps + 1
      ∧ (trainStep a half step losses s).sched_steps = s.sched_steps + 1
      ∧ (trainStep a half step losses s).zero_grads = s.zero_grads + 1
      ∧ (trainStep a half step losses s).grad = 0 := by
  rw [trainStep, if_neg (by simp [hb]), if_neg (by simp [hs])]
  by_cases hhalf : step = half
  · subst hhalf
    simp [hupd, apply_ite TrainState.global_step, apply_ite TrainState.clips,
      apply_ite TrainState.opt_steps, apply_ite TrainState.sched_steps,
      apply_ite TrainState.zero_grads, apply_ite TrainState.grad]
  · simp [hhalf, hupd, apply_ite TrainState.global_step, apply_ite TrainState.clips,
      apply_ite TrainState.opt_steps, apply_ite TrainState.sched_steps,
      apply_ite TrainState.zero_grads, apply_ite TrainState.grad]

lemma trainStep_noupdate_fields (a : Args) (half step : Nat) (losses : List ℚ)
    (s : TrainState) (hb : s.broke = false) (hs : s.skip = 0)
    (hN : 1 ≤ a.gradient_accumulation_steps)
    (hupd : (step + 1) % a.gradient_accumulation_steps ≠ 0) :
    (trainStep a half step losses s).global_step = s.global_step
      ∧ (trainStep a half step losses s).clips = s.clips
      ∧ (trainStep a half step losses s).opt_steps = s.opt_steps
      ∧ (trainStep a half step losses s).sched_steps = s.sched_steps
      ∧ (trainStep a half step losses s).zero_grads = s.zero_grads
      ∧ (trainStep a half step losses s).grad
          = s.grad + losses.sum / (a.gradient_accumulation_steps : ℚ) := by
  rw [trainStep, if_neg (by simp [hb]), if_neg (by simp [hs])]
  have hloss := loss_scale_eq a.gradient_accumulation_steps hN losses.sum
  by_cases hhalf : step = half
  · subst hhalf
    simp [hupd, hloss, apply_ite TrainState.global_step,
      apply_ite TrainState.clips, apply_ite TrainState.opt_steps,
      apply_ite TrainState.sched_steps, apply_ite TrainState.zero_grads,
      apply_ite TrainState.grad]
  · simp [hhalf, hupd, hloss, apply_ite TrainState.global_step,
      apply_ite TrainState.clips, apply_ite TrainState.opt_steps,
      apply_ite TrainState.sched_steps, apply_ite TrainState.zero_grads,
      apply_ite TrainState.grad]

lemma trainStep_gs_incr (a : Args) (half step : Nat) (losses : List ℚ)
    (s : TrainState) (hb : s.broke = false) (hs : s.skip = 0) :
    (trainStep a half step losses s).global_step
      = s.global_step
        + (if (step + 1) % a.gradient_accumulation_steps = 0 then 1 else 0) := by
  rw [trainStep, if_neg (by simp [hb]), if_neg (by simp [hs])]
  by_cases hhalf : step = half
  · subst hhalf
    by_cases hupd : (step + 1) % a.gradient_accumulation_steps = 0 <;>
      simp [hupd, apply_ite TrainState.global_step]
  · by_cases hupd : (step + 1) % a.gradient_accumulation_steps = 0 <;>
      simp [hhalf, hupd, apply_ite TrainState.global_step]

lemma trainStep_opt_incr (a : Args) (half step : Nat) (losses : List ℚ)
    (s : TrainState) (hb : s.broke = false) (hs : s.skip = 0) :
    (trainStep a half step losses s).opt_steps
      = s.opt_steps
        + (if (step + 1) % a.gradient_accumulation_steps = 0 then 1 else 0) := by
  rw [trainStep, if_neg (by simp [hb]), if_neg (by simp [hs])]
  by_cases hhalf : step = half
  · subst hhalf
    by_cases hupd : (step + 1) % a.gradient_accumulation_steps = 0 <;>
      simp [hupd, apply_ite TrainState.opt_steps]
  · by_cases hupd : (step + 1) % a.gradient_accumulation_steps = 0 <;>
      simp [hhalf, hupd, apply_ite TrainState.opt_steps]

lemma trainStep_skip_zero (a : Args) (half step : Nat) (losses : List ℚ)
    (s : TrainState) (hs : s.skip = 0) :
    (trainStep a half step losses s).skip = 0 := by
  rw [trainStep]
  by_cases hb : s.broke = true
  · rw [if_pos hb]
    exact hs
  · rw [if_neg hb, if_neg (by simp [hs])]
    by_cases hhalf : step = half <;>
      by_cases hupd : (step + 1) % a.gradient_accumulation_steps = 0 <;>
        simp [hhalf, hupd, hs, apply_ite TrainState.skip]

lemma trainStep_broke_nonpos (a : Args) (half step : Nat) (losses : List ℚ)
    (s : TrainState) (hmax : a.max_steps ≤ 0) (hb : s.broke = false) :
    (trainStep a half step losses s).broke = false := by
  rw [trainStep, if_neg (by simp [hb])]
  by_cases hskip : 0 < s.skip
  · rw [if_pos hskip]
    exact hb
  · rw [if_neg hskip]
    have hfalse : ¬ 0 < a.max_steps := by omega
    by_cases hhalf : step = half
    · subst hhalf
      by_cases hupd : (step + 1) % a.gradient_accumulation_steps = 0 <;>
        simp [hupd, hb, hfalse, apply_ite TrainState.broke]
    · by_cases hupd : (step + 1) % a.gradient_accumulation_steps = 0 <;>
        simp [hhalf, hupd, hb, hfalse, apply_ite TrainState.broke]

lemma countP_range_zero_mod (N L : Nat) (hN0 : N = 0) :
    (List.range L).countP (fun k => (k + 1) % N == 0) = 0 := by
  subst hN0
  rw [List.countP_eq_length_filter, List.length_eq_zero, List.filter_eq_nil_iff]
  intro k hk
  simp

lemma countP_range_div (N L : Nat) :
    (List.range L).countP (fun k => (k + 1) % N == 0) = L / N := by
  by_cases hN0 : N = 0
  · rw [countP_range_zero_mod N L hN0, hN0]
    exact (Nat.div_zero L).symm
  · induction L with
    | zero => simp
    | succ L ih =>
      rw [List.range_succ, List.countP_append, ih, Nat.succ_div]
      simp only [List.countP_cons, List.countP_nil]
      by_cases h : (L + 1) % N = 0
      · have hd : N ∣ L + 1 := Nat.dvd_of_mod_eq_zero h
        simp [h, hd]
      · have hd : ¬ N ∣ L + 1 := fun hdvd => h (Nat.mod_eq_zero_of_dvd hdvd)
        simp [h, hd]

lemma runSteps_invariants (a : Args) (half : Nat) (hmax : a.max_steps ≤ 0) :
    ∀ (bs : List (List ℚ)) (step : Nat) (s : TrainState),
      s.broke = false → s.skip = 0 →
      (runSteps a half step bs s).broke = false
        ∧ (runSteps a half step bs s).skip = 0
        ∧ (runSteps a half step bs s).global_step
            = s.global_step
              + (List.range bs.length).countP
                  (fun k => (step + k + 1) % a.gradient_accumulation_steps == 0)
        ∧ (runSteps a half step bs s).opt_steps
            = s.opt_steps
              + (List.range bs.length).countP
                  (fun k => (step + k + 1) % a.gradient_accumulation_steps == 0) := by
  intro bs
  induction bs with
  | nil =>
    intro step s hb hs
    simp [runSteps, hb, hs]
  | cons b bs ih =>
    intro step s hb hs
    have hb1 := trainStep_broke_nonpos a half step b s hmax hb
    have hs1 := trainStep_skip_zero a half step b s hs
    have hgs1 := trainStep_gs_incr a half step b s hb hs
    have hopt1 := trainStep_opt_incr a half step b s hb hs
    obtain ⟨ihb, ihs, ihgs, ihopt⟩ := ih (step + 1) (trainStep a half step b s) hb1 hs1
    refine ⟨ihb, ihs, ?_, ?_⟩
    · rw [show runSteps a half step (b :: bs) s
          = runSteps a half (step + 1) bs (trainStep a half step b s) from rfl,
        ihgs, hgs1, List.length_cons, List.range_succ_eq_map, List.countP_cons,
        List.countP_map]
      have hpred : ((fun k => (step + k + 1) % a.gradient_accumulation_steps == 0)
            ∘ Nat.succ)
          = (fun k => (step + 1 + k + 1) % a.gradient_accumulation_steps == 0) := by
        funext k
        simp only [Function.comp]
        congr 2
        omega
      rw [hpred]
      simp only [Nat.add_zero]
      by_cases hupd : (step + 1) % a.gradient_accumulation_steps = 0 <;>
        · simp [hupd]
          try omega
    · rw [show runSteps a half step (b :: bs) s
          = runSteps a half (step + 1) bs (trainStep a half step b s) from rfl,
        ihopt, hopt1, List.length_cons, List.range_succ_eq_map, List.countP_cons,
        List.countP_map]
      have hpred : ((fun k => (step + k + 1) % a.gradient_accumulation_steps == 0)
            ∘ Nat.succ)
          = (fun k => (step + 1 + k + 1) % a.gradient_accumulation_steps == 0) := by
        funext k
        simp only [Function.comp]
        congr 2
        omega
      rw [hpred]
      simp only [Nat.add_zero]
      by_cases hupd : (step + 1) % a.gradient_accumulation_steps = 0 <;>
        · simp [hupd]
          try omega

lemma epochBody_counts (a : Args) (hmax : a.max_steps ≤ 0) (batches : List (List ℚ))
    (s : TrainState) (hb : s.broke = false) (hs : s.skip = 0) :
    (epochBody a batches s).global_step
        = s.global_step + batches.length / a.gradient_accumulation_steps
      ∧ (epochBody a batches s).opt_steps
        = s.opt_steps + batches.length / a.gradient_accumulation_steps
      ∧ (epochBody a batches s).broke = false
      ∧ (epochBody a batches s).skip = 0 := by
  obtain ⟨hb1, hs1, hgs1, hopt1⟩ := runSteps_invariants a (batches.length / 2) hmax
    batches 0 { s with grad := 0, all_losses := [] } (by simpa using hb)
    (by simpa using hs)
  simp only [Nat.zero_add] at hgs1 hopt1
  rw [countP_range_div] at hgs1 hopt1
  rw [epochBody]
  by_cases hlr : a.local_rank = -1 ∨ a.local_rank = 0
  · rw [if_pos hlr]
    refine ⟨?_, ?_, ?_, ?_⟩ <;> simp [hgs1, hopt1, hb1, hs1]
  · rw [if_neg hlr]
    exact ⟨by simpa using hgs1, by simpa using hopt1, hb1, hs1⟩

lemma runEpochs_counts (a : Args) (hmax : a.max_steps ≤ 0) (batches : List (List ℚ)) :
    ∀ (n : Nat) (s : TrainState), s.broke = false → s.skip = 0 →
      (runEpochs a batches n s).global_step
          = s.global_step + n * (batches.length / a.gradient_accumulation_steps)
        ∧ (runEpochs a batches n s).broke = false
        ∧ (runEpochs a batches n s).skip = 0 := by
  intro n
  induction n with
  | zero =>
    intro s hb hs
    simp [runEpochs, hb, hs]
  | succ n ih =>
    intro s hb hs
    obtain ⟨hgs1, _hopt1, hb1, hs1⟩ := epochBody_counts a hmax batches s hb hs
    rw [runEpochs]
    rw [if_neg (by rintro ⟨h1, -⟩; omega)]
    obtain ⟨ihgs, ihb, ihs⟩ := ih (epochBody a batches s) hb1 hs1
    refine ⟨?_, ihb, ihs⟩
    rw [ihgs, hgs1]
    ring

lemma breakIf_cap (a : Args) (hM : 0 < a.max_steps) (t : TrainState)
    (hbt : t.broke = false) (hle : (t.global_step : Int) ≤ a.max_steps + 1) :
    capInv a (if 0 < a.max_steps ∧ a.max_steps < (t.global_step : Int)
      then { t with broke := true } else t) := by
  by_cases hc : 0 < a.max_steps ∧ a.max_steps < (t.global_step : Int)
  · rw [if_pos hc]
    constructor
    · intro hfalse
      simp at hfalse
    · intro _
      show (t.global_step : Int) = a.max_steps + 1
      omega
  · rw [if_neg hc]
    constructor
    · intro _
      omega
    · intro hbt2
      rw [hbt] at hbt2
      cases hbt2

lemma trainStep_break_behavior (a : Args) (half step : Nat) (losses : List ℚ)
    (s : TrainState) (hb : s.broke = false) (hs : s.skip = 0) :
    ((trainStep a half step losses s).global_step = s.global_step
        ∨ (trainStep a half step losses s).global_step = s.global_step + 1)
      ∧ ((trainStep a half step losses s).broke = true
          ↔ (0 < a.max_steps
              ∧ a.max_steps < ((trainStep a half step losses s).global_step : Int))) := by
  rw [trainStep, if_neg (by simp [hb]), if_neg (by simp [hs])]
  by_cases hhalf : step = half
  · subst hhalf
    by_cases hupd : (step + 1) % a.gradient_accumulation_steps = 0
    · by_cases hbrk : 0 < a.max_steps
          ∧ a.max_steps < (s.global_step : Int) + 1
      · simp [hupd, hbrk, hb]
      · simp [hupd, hbrk, hb]
    · by_cases hbrk : 0 < a.max_steps ∧ a.max_steps < (s.global_step : Int)
      · simp [hupd, hbrk, hb]
      · simp [hupd, hbrk, hb]
  · by_cases hupd : (step + 1) % a.gradient_accumulation_steps = 0
    · by_cases hbrk : 0 < a.max_steps
          ∧ a.max_steps < (s.global_step : Int) + 1
      · simp [hhalf, hupd, hbrk, hb]
      · simp [hhalf, hupd, hbrk, hb]
    · by_cases hbrk : 0 < a.max_steps ∧ a.max_steps < (s.global_step : Int)
      · simp [hhalf, hupd, hbrk, hb]
      · simp [hhalf, hupd, hbrk, hb]

lemma trainStep_cap (a : Args) (hM : 0 < a.max_steps) (half step : Nat)
    (losses : List ℚ) (s : TrainState) (hinv : capInv a s) :
    capInv a (trainStep a half step losses s) := by
  obtain ⟨hf, ht⟩ := hinv
  by_cases hb : s.broke = true
  · rw [trainStep, if_pos hb]
    exact ⟨hf, ht⟩
  · have hb' : s.broke = false := by simpa using hb
    have hle : (s.global_step : Int) ≤ a.max_steps := hf hb'
    by_cases hskip : 0 < s.skip
    · rw [trainStep, if_neg hb, if_pos hskip]
      constructor
      · intro _
        simpa using hle
      · intro hcontra
        rw [show ({ s with skip := s.skip - 1 } : TrainState).broke = s.broke
          from rfl, hb'] at hcontra
        cases hcontra
    · have hs : s.skip = 0 := by omega
      obtain ⟨hgs, hbiff⟩ := trainStep_break_behavior a half step losses s hb' hs
      constructor
      · intro hbf
        have hnc : ¬(0 < a.max_steps
            ∧ a.max_steps < ((trainStep a half step losses s).global_step : Int)) := by
          rw [← hbiff]
          simp [hbf]
        rcases hgs with h1 | h1 <;> omega
      · intro hbt
        have hc := hbiff.mp hbt
        rcases hgs with h1 | h1 <;> omega

lemma runSteps_broke_id (a : Args) (half : Nat) :
    ∀ (bs : List (List ℚ)) (step : Nat) (s : TrainState), s.broke = true →
      runSteps a half step bs s = s := by
  intro bs
  induction bs with
  | nil =>
    intro step s _
    rfl
  | cons b bs ih =>
    intro step s hb
    have hstep : trainStep a half step b s = s := by
      rw [trainStep, if_pos hb]
    rw [show runSteps a half step (b :: bs) s
        = runSteps a half (step + 1) bs (trainStep a half step b s) from rfl,
      hstep]
    exact ih (step + 1) s hb

lemma runSteps_cap (a : Args) (hM : 0 < a.max_steps) (half : Nat) :
    ∀ (bs : List (List ℚ)) (step : Nat) (s : TrainState), capInv a s →
      capInv a (runSteps a half step bs s) := by
  intro bs
  induction bs with
  | nil =>
    intro step s h
    exact h
  | cons b bs ih =>
    intro step s h
    exact ih (step + 1) _ (trainStep_cap a hM half step b s h)

lemma epochBody_cap (a : Args) (hM : 0 < a.max_steps) (batches : List (List ℚ))
    (s : TrainState) (h : capInv a s) : capInv a (epochBody a batches s) := by
  rw [epochBody]
  have h1 : capInv a (runSteps a (batches.length / 2) 0 batches
      { s with grad := 0, all_losses := [] }) :=
    runSteps_cap a hM _ batches 0 _ h
  by_cases hlr : a.local_rank = -1 ∨ a.local_rank = 0
  · rw [if_pos hlr]
    exact h1
  · rw [if_neg hlr]
    exact h1

lemma runEpochs_cap (a : Args) (hM : 0 < a.max_steps) (batches : List (List ℚ)) :
    ∀ (n : Nat) (s : TrainState), capInv a s → capInv a (runEpochs a batches n s) := by
  intro n
  induction n with
  | zero =>
    intro s h
    exact h
  | succ n ih =>
    intro s h
    rw [runEpochs]
    by_cases hc : 0 < a.max_steps
        ∧ a.max_steps < ((epochBody a batches s).global_step : Int)
    · rw [if_pos hc]
      exact epochBody_cap a hM batches s h
    · rw [if_neg hc]
      exact ih _ (epochBody_cap a hM batches s h)

/-- C3: in split mode, a raw batch all of whose per-task groups are empty —
one contributing zero instances in total — makes collate_func raise the
explicit empty-composite-batch error ("Empty task lists") for that step
instead of returning a batch or proceeding; no code path retries it. -/
theorem collate_empty_composite_raises (numTasks : Nat) (batch : List Instance)
    (hempty : ∀ t : Nat, batch.filter (fun i => i.task == t) = []) :
    collate_func numTasks batch = .error "Empty task lists" := by
  have hnil : batch = [] := by
    cases batch with
    | nil => rfl
    | cons inst rest =>
      have h := hempty inst.task
      rw [List.filter_cons] at h
      simp at h
  rw [hnil]
  exact collate_func_nil numTasks

theorem collate_empty_composite_raises_witness :
    (∀ t : Nat, (([] : List Instance)).filter (fun i => i.task == t) = [])
      ∧ collate_func 2 [] = .error "Empty task lists" :=
  ⟨fun _ => rfl, collate_empty_composite_raises 2 [] (fun _ => rfl)⟩

/-- C4 counterexample: on the raw batch [task 1 instance, task 0 instance],
collate_func returns the sub-batches in task-index order [task 0, task 1],
not in the order tasks appear in the raw batch, which is [1, 0]: part (c)
of the claim fails on the code. -/
theorem collate_order_counterexample :
    collate_func 2 [instTask1, instTask0] = .ok [[instTask0], [instTask1]]
      ∧ appearanceOrder [instTask1, instTask0] = [1, 0]
      ∧ [[instTask0], [instTask1]].map headTask = [0, 1]
      ∧ [[instTask0], [instTask1]].map headTask
          ≠ appearanceOrder [instTask1, instTask0] := by
  refine ⟨rfl, rfl, rfl, ?_⟩
  decide

/-- C4 (amended): for every non-empty in-range raw batch in split mode,
collate_func returns exactly the non-empty per-task groups; every instance
of a sub-batch shares one task id and keeps its raw-batch order, empty
groups are dropped, and the sub-batches appear contiguously in increasing
task-index order — not in raw-batch appearance order. -/
theorem collate_grouping_amended (numTasks : Nat) (batch : List Instance)
    (hrange : ∀ i ∈ batch, i.task < numTasks) (hne : batch ≠ []) :
    collate_func numTasks batch
        = .ok ((groupsOf numTasks batch).filter (fun g => g.length != 0))
      ∧ (∀ sb ∈ (groupsOf numTasks batch).filter (fun g => g.length != 0),
          ∃ t, sb = batch.filter (fun i => i.task == t) ∧ ∀ x ∈ sb, x.task = t)
      ∧ [] ∉ (groupsOf numTasks batch).filter (fun g => g.length != 0)
      ∧ ((groupsOf numTasks batch).filter (fun g => g.length != 0)).Pairwise
          (fun g1 g2 => ∀ x ∈ g1, ∀ y ∈ g2, x.task < y.task) := by
  refine ⟨collate_func_ok numTasks batch hrange hne, ?_, ?_, ?_⟩
  · intro sb hsb
    have hmem := (List.mem_filter.mp hsb).1
    rw [groupsOf] at hmem
    obtain ⟨t, _ht, rfl⟩ := List.mem_map.mp hmem
    exact ⟨t, rfl, fun x hx => mem_filter_task batch t x hx⟩
  · intro hmem
    have h := (List.mem_filter.mp hmem).2
    simp at h
  · have hp : (groupsOf numTasks batch).Pairwise
        (fun g1 g2 => ∀ x ∈ g1, ∀ y ∈ g2, x.task < y.task) := by
      rw [groupsOf]
      refine List.Pairwise.map _ ?_ (List.pairwise_lt_range numTasks)
      intro t1 t2 hlt x hx y hy
      rw [mem_filter_task batch t1 x hx, mem_filter_task batch t2 y hy]
      exact hlt
    exact List.Pairwise.sublist (List.filter_sublist _) hp

theorem collate_grouping_amended_witness :
    collate_func 2 [instTask1, instTask0]
      = .ok ((groupsOf 2 [instTask1, instTask0]).filter (fun g => g.length != 0)) :=
  (collate_grouping_amended 2 [instTask1, instTask0] (by decide) (by decide)).1

/-- C1: for every accumulation window N ≥ 1, each raw step adds the sum of
its sub-batch losses divided by N to the loss accumulator; gradient
clipping, loss logging, the optimizer update, the scheduler step, the
gradient reset and the global_step increment all happen exactly at the
steps where step + 1 is a multiple of N and at no other step; and over a
fresh epoch without a step cap the optimizer updates — and the growth of
global_step — number exactly (raw batches) / N: once per N consecutive raw
batches, one global_step per update, never one per raw batch. -/
theorem accumulation_window_contract (a : Args)
    (hN : 1 ≤ a.gradient_accumulation_steps) :
    (∀ (half step : Nat) (losses : List ℚ) (s : TrainState),
        s.broke = false → s.skip = 0 →
        (trainStep a half step losses s).tr_loss
          = s.tr_loss + losses.sum / (a.gradient_accumulation_steps : ℚ))
      ∧ (∀ (half step : Nat) (losses : List ℚ) (s : TrainState),
          s.broke = false → s.skip = 0 →
          (step + 1) % a.gradient_accumulation_steps = 0 →
          (trainStep a half step losses s).global_step = s.global_step + 1
            ∧ (trainStep a half step losses s).clips = s.clips + 1
            ∧ (trainStep a half step losses s).opt_steps = s.opt_steps + 1
            ∧ (trainStep a half step losses s).sched_steps = s.sched_steps + 1
            ∧ (trainStep a half step losses s).zero_grads = s.zero_grads + 1
            ∧ (trainStep a half step losses s).grad = 0)
      ∧ (∀ (half step : Nat) (losses : List ℚ) (s : TrainState),
          s.broke = false → s.skip = 0 →
          (step + 1) % a.gradient_accumulation_steps ≠ 0 →
          (trainStep a half step losses s).global_step = s.global_step
            ∧ (trainStep a half step losses s).clips = s.clips
            ∧ (trainStep a half step losses s).opt_steps = s.opt_steps
            ∧ (trainStep a half step losses s).sched_steps = s.sched_steps
            ∧ (trainStep a half step losses s).zero_grads = s.zero_grads
            ∧ (trainStep a half step losses s).grad
                = s.grad + losses.sum / (a.gradient_accumulation_steps : ℚ))
      ∧ (a.max_steps ≤ 0 →
          ∀ (batches : List (List ℚ)) (s : TrainState),
          s.broke = false → s.skip = 0 →
          (epochBody a batches s).global_step
              = s.global_step + batches.length / a.gradient_accumulation_steps
            ∧ (epochBody a batches s).opt_steps
              = s.opt_steps + batches.length / a.gradient_accumulation_steps) := by
  refine ⟨?_, ?_, ?_, ?_⟩
  · intro half step losses s hb hs
    exact trainStep_tr_loss a half step losses s hb hs hN
  · intro half step losses s hb hs hupd
    exact trainStep_update_fields a half step losses s hb hs hupd
  · intro half step losses s hb hs hupd
    exact trainStep_noupdate_fields a half step losses s hb hs hN hupd
  · intro hmax batches s hb hs
    obtain ⟨h1, h2, -, -⟩ := epochBody_counts a hmax batches s hb hs
    exact ⟨h1, h2⟩

theorem accumulation_window_contract_witness :
    (epochBody argsA [[1], [1], [1]] (initState argsA false 3)).global_step
      = (initState argsA false 3).global_step + 3 / 2 :=
  ((accumulation_window_contract argsA (by decide)).2.2.2 (by decide)
    [[1], [1], [1]] (initState argsA false 3) rfl rfl).1

/-- C2: on resume (checkpoint path present, restart flag unset) global_step
is recovered by parsing the integer after the last dash of the checkpoint
path, the resume epoch is global_step divided by steps-per-epoch
(dataloader length integer-divided by the accumulation window), the raw
steps skipped at the start of that epoch are global_step modulo the same
steps-per-epoch, and save_model names its directory checkpoint-<step> so
the parse inverts the naming for every output directory. -/
theorem resume_parse_contract (a : Args) (dataloaderLen : Nat)
    (hsa : a.start_again = false) :
    initGlobalStep a true = parseCheckpointStep a.model_name_or_path
      ∧ epochsTrained a true dataloaderLen
          = parseCheckpointStep a.model_name_or_path
            / (dataloaderLen / a.gradient_accumulation_steps)
      ∧ stepsSkippedInEpoch a true dataloaderLen
          = parseCheckpointStep a.model_name_or_path
            % (dataloaderLen / a.gradient_accumulation_steps)
      ∧ (∀ (dir : List Char) (k : Nat),
          parseCheckpointStep (checkpointDir dir k) = k) := by
  refine ⟨?_, ?_, ?_, fun dir k => parse_checkpointDir dir k⟩
  · rw [initGlobalStep, if_pos ⟨rfl, hsa⟩]
  · rw [epochsTrained, if_pos ⟨rfl, hsa⟩, stepsPerEpoch]
  · rw [stepsSkippedInEpoch, if_pos ⟨rfl, hsa⟩, stepsPerEpoch]

theorem resume_parse_contract_witness :
    parseCheckpointStep (checkpointDir "out".data 37) = 37 :=
  (resume_parse_contract argsA 8 rfl).2.2.2 "out".data 37

/-- C8 counterexample: window 1, max_steps 1, a fresh 3-batch epoch. The
loop tests global_step > max_steps, so the update that reaches the cap does
not stop training: a second optimizer update runs and global_step ends at
2, one beyond the configured cap of 1 — updates beyond the cap are
performed, contradicting the claim that training stops as soon as
global_step reaches the maximum. -/
theorem max_steps_counterexample :
    (trainFinal argsB [[1], [1], [1]] false).global_step = 2
      ∧ argsB.max_steps = 1 := by
  exact ⟨rfl, rfl⟩

/-- C8 (amended): with a positive step cap and a fresh start, training stops
early — the in-epoch iterator passes further batches through untouched once
the break flag is set, and the epoch loop stops as soon as global_step
exceeds the cap — so global_step never passes max_steps + 1: the break
fires directly after the first update that exceeds the cap, which is one
update beyond it. -/
theorem max_steps_amended (a : Args) (batches : List (List ℚ))
    (hM : 0 < a.max_steps) :
    (trainFinal a batches false).global_step ≤ a.max_steps.toNat + 1
      ∧ (∀ (half step : Nat) (bs : List (List ℚ)) (s : TrainState),
          s.broke = true → runSteps a half step bs s = s)
      ∧ (∀ (n : Nat) (s : TrainState),
          0 < a.max_steps
            ∧ a.max_steps < ((epochBody a batches s).global_step : Int) →
          runEpochs a batches (n + 1) s = epochBody a batches s) := by
  refine ⟨?_, ?_, ?_⟩
  · have hinv0 : capInv a (initState a false batches.length) := by
      constructor
      · intro _
        show ((initGlobalStep a false : Nat) : Int) ≤ a.max_steps
        rw [initGlobalStep, if_neg (by simp)]
        omega
      · intro hbt
        simp [initState] at hbt
    have hcap : capInv a (trainFinal a batches false) := by
      rw [trainFinal]
      exact runEpochs_cap a hM batches _ _ hinv0
    obtain ⟨hf, ht⟩ := hcap
    by_cases hb : (trainFinal a batches false).broke = true
    · have := ht hb
      omega
    · have := hf (by simpa using hb)
      omega
  · intro half step bs s hb
    exact runSteps_broke_id a half bs step s hb
  · intro n s hc
    rw [runEpochs, if_pos hc]

theorem max_steps_amended_witness :
    (trainFinal argsB [[1], [1], [1]] false).global_step
      ≤ argsB.max_steps.toNat + 1 :=
  (max_steps_amended argsB [[1], [1], [1]] (by decide)).1

/-- C10: on a fresh run whose dataloader yields fewer raw batches than the
accumulation window and with no step cap, no raw step satisfies the
accumulation condition, so global_step stays 0 through every epoch; the
final expression of train divides the accumulated loss by global_step, a
division by zero — and in general train returns normally only when at least
one optimizer update happened. -/
theorem train_no_update_divzero (a : Args) (batches : List (List ℚ))
    (hN : 1 ≤ a.gradient_accumulation_steps)
    (hL : batches.length < a.gradient_accumulation_steps)
    (hmax : a.max_steps ≤ 0) :
    (trainFinal a batches false).global_step = 0
      ∧ train a batches false = .error "ZeroDivisionError"
      ∧ (∀ (a2 : Args) (b2 : List (List ℚ)) (m2 : Bool) (r : Nat × ℚ),
          train a2 b2 m2 = .ok r → 0 < (trainFinal a2 b2 m2).global_step) := by
  have hdiv : batches.length / a.gradient_accumulation_steps = 0 :=
    Nat.div_eq_of_lt hL
  have hzero : (trainFinal a batches false).global_step = 0 := by
    rw [trainFinal]
    obtain ⟨hgs, -, -⟩ := runEpochs_counts a hmax batches
      (effectiveEpochs a batches.length - epochsTrained a false batches.length)
      (initState a false batches.length) rfl
      (by simp [initState, stepsSkippedInEpoch])
    rw [hgs, hdiv]
    simp [initState, initGlobalStep]
  refine ⟨hzero, ?_, ?_⟩
  · rw [train, if_neg (by omega), if_neg (by rintro ⟨h1, -⟩; omega),
      if_neg (by rintro ⟨h1, -⟩; cases h1), if_pos hzero]
  · intro a2 b2 m2 r h
    rw [train] at h
    by_cases h1 : a2.gradient_accumulation_steps = 0
    · rw [if_pos h1] at h
      cases h
    · rw [if_neg h1] at h
      by_cases h2 : 0 < a2.max_steps ∧ stepsPerEpoch a2 b2.length = 0
      · rw [if_pos h2] at h
        cases h
      · rw [if_neg h2] at h
        by_cases h3 : m2 = true ∧ a2.start_again = false
            ∧ stepsPerEpoch a2 b2.length = 0
        · rw [if_pos h3] at h
          cases h
        · rw [if_neg h3] at h
          by_cases h4 : (trainFinal a2 b2 m2).global_step = 0
          · rw [if_pos h4] at h
            cases h
          · omega

theorem train_no_update_divzero_witness :
    train argsA [[1]] false = .error "ZeroDivisionError" :=
  (train_no_update_divzero argsA [[1]] (by decide) (by decide) (by decide)).2.1

/-- C5 (code bug): the run writes results.json as its completion artifact,
but the already-done guard at startup tests results.csv — a file this
program never writes. With results.json present in the output directory
(and the overwrite flag set so the populated-directory check passes),
startup proceeds to redo the whole run instead of exiting successfully. -/
theorem completion_marker_mismatch :
    completionMarker ≠ resultsFileWritten
      ∧ mainStartup { argsA with overwrite_output_dir := true }
          [resultsFileWritten] ["sst-2".data] = .proceed
      ∧ mainStartup { argsA with overwrite_output_dir := true }
          [completionMarker] ["sst-2".data] = .alreadyDone := by
  refine ⟨by decide, by decide, by decide⟩

/-- C6 (code bug): for the mnli task the evaluation loop builds two output
directories (matched and the -MM mismatched one) but the task tuple has a
single element — both branches of the conditional at line 524 produce
("mnli",) — so the zip the loop iterates truncates to exactly one pair and
only the matched held-out split is evaluated: no second metric set under a
separate key is produced. -/
theorem mnli_double_eval_dropped :
    (evalOutputsDirs "out".data "mnli".data).length = 2
      ∧ evalPairs "out".data "mnli".data = [("mnli".data, "out".data)]
      ∧ (evalPairs "out".data "mnli".data).length = 1
      ∧ evalTaskNames "mnli".data = ["mnli".data] := by
  refine ⟨by decide, by decide, by decide, by decide⟩

/-- C7 counterexample: the batch-type value "bogus" is outside the
recognized set, yet startup proceeds without any configuration error; and
the dense-vs-split dataloader selection reads the output directory name —
it flips with the directory and never with the batch type. -/
theorem batch_type_unvalidated_counterexample :
    "bogus".data ∉ recognizedBatchTypes
      ∧ mainStartup argsC [] ["sst-2".data] = .proceed
      ∧ denseDataloader argsC = false
      ∧ denseDataloader { argsC with output_dir := "out_dnc".data } = true
      ∧ denseDataloader { argsC with batch_type := "homogeneous".data }
          = denseDataloader argsC := by
  refine ⟨by decide, by decide, by decide, by decide, by decide⟩

/-- C7 (amended): the batch-type option is parsed but never validated — the
startup disposition is identical under every batch-type value — and the
selection between the dense single-batch collate and the split per-task
collate is keyed on the output directory name, not on the batch type. -/
theorem batch_type_amended (a : Args) (files procs : List (List Char))
    (bt : List Char) :
    mainStartup { a with batch_type := bt } files procs
        = mainStartup a files procs
      ∧ denseDataloader { a with batch_type := bt } = denseDataloader a :=
  ⟨rfl, rfl⟩

/-- C9: in a single-process run (local_rank -1), load_and_cache_examples
loads features from the cache exactly when the file keyed by split, model
identity, max sequence length and task exists and the overwrite flag is
unset; otherwise it regenerates features from the source examples and
writes them back under the cache key, and a regeneration failure
propagates as the fatal error with no partial fallback. -/
theorem load_and_cache_contract (a : Args) (data_dir task : List Char)
    (evaluate : Bool) (env : CacheEnv) (regen : Except String (List Nat))
    (hrank : a.local_rank = -1) :
    (cached_features_file a data_dir task evaluate ∈ env.files
        ∧ a.overwrite_cache = false →
      load_and_cache_examples a data_dir task evaluate env regen
        = .ok (.cache, env))
      ∧ (¬(cached_features_file a data_dir task evaluate ∈ env.files
            ∧ a.overwrite_cache = false) →
          ∀ f, regen = .ok f →
            load_and_cache_examples a data_dir task evaluate env regen
              = .ok (.regenerated,
                  { env with
                    files := cached_features_file a data_dir task evaluate
                      :: env.files }))
      ∧ (¬(cached_features_file a data_dir task evaluate ∈ env.files
            ∧ a.overwrite_cache = false) →
          ∀ e, regen = .error e →
            load_and_cache_examples a data_dir task evaluate env regen
              = .error e) := by
  refine ⟨?_, ?_, ?_⟩
  · intro hc
    rw [load_and_cache_examples.eq_def, if_pos hc]
  · intro hc f hf
    subst hf
    simp [load_and_cache_examples, hc, hrank]
  · intro hc e he
    subst he
    simp [load_and_cache_examples, hc]

theorem load_and_cache_contract_witness :
    load_and_cache_examples argsA "data".data "sst-2".data false cacheEnvA
        (.ok [0])
      = .ok (.cache, cacheEnvA) :=
  (load_and_cache_contract argsA "data".data "sst-2".data false cacheEnvA
    (.ok [0]) rfl).1 ⟨List.mem_cons_self _ _, rfl⟩
